import Mathlib

/-
Verification of the posixSystem.cpp platform layer of the context-free
repository: the buffer-growth conversion protocol and text normalizer,
the temp-directory resolver, temp-file factory and registry, the
physical-memory probe and the fatal-error reporter.

Strings are modelled as lists of their code units: UTF-8 input, UTF-16
buffers and wide output as `List Nat`, filesystem paths as `List Char`.
External OS and ICU facilities (getenv, stat, opendir/readdir, mkstemps,
ucnv_open, ucnv_toUChars, unorm2_getNFKCInstance, unorm2_normalize) are
parameters of the corresponding definitions.
-/

namespace ContextFree

/-- ICU status word as seen by the retry loops in `PosixSystem::normalize`:
success (including warnings), `U_BUFFER_OVERFLOW_ERROR`, or any other
failure code. -/
inductive UStatus where
  | zeroError
  | bufferOverflow
  | otherFailure
deriving DecidableEq

/-- The test `U_FAILURE(status) && status != U_BUFFER_OVERFLOW_ERROR`
performed at posixSystem.cpp lines 262 and 281. -/
def hardFailure : UStatus → Bool
  | .otherFailure => true
  | _ => false

/-- `std::basic_string::resize(n, pad)`: truncate to `n` when shrinking,
keep the contents and pad with `pad` when growing. -/
def resizeFill {α : Type} (l : List α) (n : Nat) (pad : α) : List α :=
  l.take n ++ List.replicate (n - l.length) pad

/-- Result of one buffer-growth conversion loop: fuel exhausted (the C++
`for (;;)` loop still spinning), a surfaced conversion error, or the final
buffer. -/
inductive BufResult (α : Type) where
  | fuelOut
  | convError
  | ok (out : List α)
deriving DecidableEq

/-- Modelled from the spec: `CfdgError::Error` is declared outside these
sources (in cfdg.h, which is not part of the given files). The spec states
that a non-overflow transform failure at the decode or normalization step
surfaces as a recoverable `TextConversionError` to the caller, never as a
partially populated buffer and never by terminating the process; the report
is therefore modelled as the recoverable `convError` outcome of the loop. -/
def cfdgErrorReport (α : Type) : BufResult α := BufResult.convError

/-- The buffer-growth conversion loop of posixSystem.cpp lines 257-271 and
275-290: call the transform on the current buffer (the code passes capacity
`length + 1`); a non-overflow failure surfaces as an error; if the reported
size fits the buffer, truncate to exactly that size and stop; otherwise
resize to the reported size plus one and retry.  The C++ loop is unbounded;
`fuel` makes the recursion explicit, with `fuelOut` standing for a loop
that has not yet finished. -/
def bufGrowLoop {α : Type} (t : List α → List α × Nat × UStatus) (pad : α) :
    Nat → List α → BufResult α
  | 0, _ => .fuelOut
  | fuel+1, buf =>
    if hardFailure (t buf).2.2 then cfdgErrorReport α
    else if (t buf).2.1 ≤ buf.length then .ok (resizeFill (t buf).1 (t buf).2.1 pad)
    else bufGrowLoop t pad fuel (resizeFill (t buf).1 ((t buf).2.1 + 1) pad)

/-- The lazily initialized engine fields `mConverter` and `mNormalizer` of
`PosixSystem` (posixSystem.cpp line 217). -/
structure NormState (C N : Type) where
  mConverter : Option C
  mNormalizer : Option N
deriving DecidableEq

/-- The ICU facilities used by `PosixSystem::normalize`: engine
constructors (`none` models a construction that fails with an error
status), and the two conversion transforms, each taking the input string
and the current output buffer and returning the written buffer, the
reported size and the resulting status. -/
structure ICUPlatform (C N : Type) where
  ucnvOpenUTF8 : Option C
  nfkcInstance : Option N
  ucnvToUChars : C → List Nat → List Nat → List Nat × Nat × UStatus
  unorm2Normalize : N → List Nat → List Nat → List Nat × Nat × UStatus

/-- Outcome of `PosixSystem::normalize`: process termination with an exit
status (via `catastrophicError`), a surfaced recoverable conversion error,
an unbounded loop still spinning, or the normalized wide string. -/
inductive NormOutcome where
  | fatal (exitStatus : Nat)
  | convError
  | fuelOut
  | ok (w : List Nat)
deriving DecidableEq

/-- `PosixSystem::catastrophicError` (posixSystem.cpp lines 76-81): print
the diagnostic and `std::exit(33)`. -/
def catastrophicError (what : List Char) : NormOutcome := NormOutcome.fatal 33

/-- The lazy-initialization pattern `if (!field) field = make();` used for
both engines at posixSystem.cpp lines 243 and 248. -/
def lazyInit {α : Type} (cur mk : Option α) : Option α :=
  match cur with
  | some c => some c
  | none => mk

/-- The code unit of `L' '`, used to construct and pad the conversion
buffers. -/
def spaceUnit : Nat := 32

/-- `PosixSystem::normalize` (posixSystem.cpp lines 238-292): lazily
construct the UTF-8 converter and the NFKC normalizer, invoking
`catastrophicError` if either construction fails; then run the
buffer-growth loop to decode UTF-8 to UTF-16 starting from a buffer of the
input length, and run it again to NFKC-normalize the UTF-16 text starting
from a buffer of the intermediate length.  Returns the updated engine
state together with the outcome. -/
def normalize {C N : Type} (P : ICUPlatform C N) (fuel1 fuel2 : Nat)
    (st : NormState C N) (u8name : List Nat) : NormState C N × NormOutcome :=
  match lazyInit st.mConverter P.ucnvOpenUTF8 with
  | none => (st, catastrophicError ("No Converter".toList))
  | some conv =>
    match lazyInit st.mNormalizer P.nfkcInstance with
    | none => (⟨some conv, st.mNormalizer⟩, catastrophicError ("No Normalizer".toList))
    | some nrm =>
      match bufGrowLoop (P.ucnvToUChars conv u8name) spaceUnit fuel1
          (List.replicate u8name.length spaceUnit) with
      | .fuelOut => (⟨some conv, some nrm⟩, .fuelOut)
      | .convError => (⟨some conv, some nrm⟩, .convError)
      | .ok u16name =>
        match bufGrowLoop (P.unorm2Normalize nrm u16name) spaceUnit fuel2
            (List.replicate u16name.length spaceUnit) with
        | .fuelOut => (⟨some conv, some nrm⟩, .fuelOut)
        | .convError => (⟨some conv, some nrm⟩, .convError)
        | .ok ret => (⟨some conv, some nrm⟩, .ok ret)

/-- An ICU transform writing the full output `out` into a buffer of fixed
length: the first `min |out| |buf|` slots receive the output, the rest of
the buffer is untouched. -/
def icuWrite (out buf : List Nat) : List Nat :=
  out.take buf.length ++ buf.drop out.length

/-- The transform obtained from a pure conversion function `f`, following
the ICU contract: the reported size is always the full output length, the
buffer receives as much of the output as fits, and the status is a buffer
overflow exactly when the output exceeds the passed capacity
(buffer length plus one, as the code passes `length + 1`). -/
def icuPureTransform (f : List Nat → List Nat) (input : List Nat) (buf : List Nat) :
    List Nat × Nat × UStatus :=
  (icuWrite (f input) buf, (f input).length,
    if buf.length + 1 < (f input).length then .bufferOverflow else .zeroError)

/-- An ICU platform whose engines construct successfully and whose two
transforms compute the pure functions `dec` (UTF-8 to UTF-16 decoding) and
`nf` (NFKC normalization) per the ICU contract. -/
def purePlatform (dec nf : List Nat → List Nat) : ICUPlatform Unit Unit :=
  ⟨some (), some (),
    fun _ input buf => icuPureTransform dec input buf,
    fun _ input buf => icuPureTransform nf input buf⟩

/-- The acceptance test applied to each candidate of
`PosixSystem::tempFileDirectory` (posixSystem.cpp lines 87-90): the
variable is set, and `stat` succeeds on its value with `S_ISDIR` true
(`statDir` bundles the latter two). -/
def envOk (statDir : List Char → Bool) : Option (List Char) → Bool
  | none => false
  | some v => statDir v

/-- `PosixSystem::tempFileDirectory` (posixSystem.cpp lines 83-92):
try `TMPDIR`, `TEMP`, `TMP` in order, keeping the first accepted value,
and fall back to `/tmp/`.  `env` models `getenv`. -/
def tempFileDirectory (env : String → Option (List Char)) (statDir : List Char → Bool) :
    List Char :=
  let t1 := env ("TMPDIR")
  let t2 := if envOk statDir t1 then t1 else env ("TEMP")
  let t3 := if envOk statDir t2 then t2 else env ("TMP")
  let t4 := if envOk statDir t3 then t3 else some ("/tmp/".toList)
  t4.getD ("/tmp/".toList)

/-- Qualification of a file name with a directory: append a `/` separator
unless the directory already ends in one (the `back() != '/'` pattern of
posixSystem.cpp lines 111-112 and 160-161). -/
def qualify (dirname nm : List Char) : List Char :=
  if dirname.getLast? = some '/' then dirname ++ nm else dirname ++ '/' :: nm

/-- `PosixSystem::findTempFiles` (posixSystem.cpp lines 149-167): resolve
the temp directory, return an empty list if it cannot be opened, and
otherwise collect every entry whose name starts with `tpAll`
(`TempPrefixAll`, declared in abstractSystem.h), qualified with the
directory.  `readDir` models `opendir`/`readdir`. -/
def findTempFiles (env : String → Option (List Char)) (statDir : List Char → Bool)
    (readDir : List Char → Option (List (List Char))) (tpAll : List Char) :
    List (List Char) :=
  match readDir (tempFileDirectory env statDir) with
  | none => []
  | some entries =>
    entries.foldl
      (fun ret nm =>
        if tpAll.isPrefixOf nm then ret ++ [qualify (tempFileDirectory env statDir) nm]
        else ret)
      []

/-- The filename template built by `PosixSystem::tempFileForWrite`
(posixSystem.cpp lines 110-115): the resolved temp directory with a
trailing separator ensured, then the kind prefix, `XXXXXX`, and the kind
suffix.  `pres` and `sufs` model the `TempPrefixes` and `TempSuffixes`
tables of abstractSystem.h. -/
def tempTemplate {τ : Type} (env : String → Option (List Char)) (statDir : List Char → Bool)
    (pres sufs : τ → List Char) (tt : τ) : List Char :=
  qualify (tempFileDirectory env statDir)
    (pres tt ++ ['X', 'X', 'X', 'X', 'X', 'X'] ++ sufs tt)

/-- `PosixSystem::tempFileForWrite` (posixSystem.cpp lines 107-127): build
the template, call `mkstemps` with the suffix length; on failure (-1)
return a null handle and leave `nameOut` unchanged; on success return the
handle wrapping the descriptor and assign the final name to `nameOut`.
`mkst` models `mkstemps`, returning the rewritten name and the descriptor,
and the handle is modelled by the descriptor it wraps. -/
def tempFileForWrite {τ : Type} (env : String → Option (List Char)) (statDir : List Char → Bool)
    (pres sufs : τ → List Char) (mkst : List Char → Nat → Option (List Char × Nat))
    (tt : τ) (nameOut : List Char) : Option Nat × List Char :=
  match mkst (tempTemplate env statDir pres sufs tt) (sufs tt).length with
  | none => (none, nameOut)
  | some (b, fd) => (some fd, b)

/-- `std::string::rfind(c)`: the index of the last occurrence of `c`, if
any. -/
def rfindChar (c : Char) : List Char → Option Nat
  | [] => none
  | x :: xs =>
    match rfindChar c xs with
    | some i => some (i + 1)
    | none => if x = c then some 0 else none

/-- `PosixSystem::relativeFilePath` (posixSystem.cpp lines 129-141): if
`base` has no `/`, return `rel`; otherwise keep `base` up to and including
its last `/` and append `rel` (the `replace(i, length - i, rel)` call). -/
def relativeFilePath (base rel : List Char) : List Char :=
  match rfindChar '/' base with
  | none => rel
  | some i => base.take (i + 1) ++ rel

/-- The compile-time and run-time configurations distinguished by
`PosixSystem::getPhysicalMemory` (posixSystem.cpp lines 169-214):
`NOSYSCTL`; Linux with both `_SC_PHYS_PAGES` and `_SC_PAGESIZE` (carrying
the two `sysconf` values); Linux without them; the sysctl path without
`CTL_HW`; with `CTL_HW` but no known `HW_*` name; and the sysctl query
itself, `none` modelling a `sysctl` call that fails at run time. -/
inductive MemPlatform where
  | noSysctl
  | linuxWithSysconf (physPages pageSize : Nat)
  | linuxNoSysconf
  | sysctlNoCtlHw
  | sysctlNoHwName
  | sysctlQuery (result : Option Nat)
deriving DecidableEq

/-- `PosixSystem::getPhysicalMemory` (posixSystem.cpp lines 169-214):
return 0 when no mechanism is compiled in or the run-time query fails,
and otherwise the queried value clamped to `maxMemory` (`MaximumMemory`,
declared in abstractSystem.h).  The Linux product is 64-bit unsigned
arithmetic. -/
def getPhysicalMemory (maxMemory : Nat) : MemPlatform → Nat
  | .noSysctl => 0
  | .linuxWithSysconf pp ps =>
    if (pp * ps) % (2 ^ 64) > maxMemory then maxMemory else (pp * ps) % (2 ^ 64)
  | .linuxNoSysconf => 0
  | .sysctlNoCtlHw => 0
  | .sysctlNoHwName => 0
  | .sysctlQuery none => 0
  | .sysctlQuery (some v) => if v > maxMemory then maxMemory else v

/-- The sequence of buffer lengths visited by the growth loop when the
transform's reported size depends only on the buffer length, via `g`:
each retry resizes to the reported size plus one. -/
def lenSeq (g : Nat → Nat) (l0 : Nat) : Nat → Nat
  | 0 => l0
  | i+1 => g (lenSeq g l0 i) + 1

/-- A transform that keeps demanding one unit more than the buffer holds
until the buffer reaches length `m`, then succeeds with an empty output;
exhibits runs of the growth loop of any prescribed number of retries. -/
def tDemand (m : Nat) (buf : List Nat) : List Nat × Nat × UStatus :=
  if buf.length < m then (buf, buf.length + 1, .bufferOverflow) else (buf, 0, .zeroError)

/-- A transform that reports needed size 5 with an overflow status while
the buffer is shorter than 5 and succeeds once it is at least 5; the
concrete two-attempt scenario of the buffer-growth protocol. -/
def twoCallT (buf : List Nat) : List Nat × Nat × UStatus :=
  if buf.length < 5 then (buf, 5, .bufferOverflow) else (buf, 5, .zeroError)

/-- A transform that always succeeds immediately with an empty output. -/
def constT (buf : List Nat) : List Nat × Nat × UStatus := (buf, 0, .zeroError)

/-- A platform whose engines construct but whose transforms always report
a non-overflow failure. -/
def failPlat : ICUPlatform Unit Unit :=
  ⟨some (), some (),
    fun _ _ buf => (buf, 0, .otherFailure),
    fun _ _ buf => (buf, 0, .otherFailure)⟩

/-- A platform on which the UTF-8 converter engine fails to construct. -/
def noConvPlat : ICUPlatform Unit Unit :=
  ⟨none, none,
    fun _ _ buf => (buf, 0, .zeroError),
    fun _ _ buf => (buf, 0, .zeroError)⟩

/-- An environment with only `TMPDIR` set, to the path `td`. -/
def envTmpdirOnly : String → Option (List Char) :=
  fun s => if s = ("TMPDIR") then some ['t', 'd'] else none

/-- A filesystem on which every path is an existing directory. -/
def statAlways : List Char → Bool := fun _ => true

/-- A directory listing with one matching and one non-matching entry. -/
def readDirFix : List Char → Option (List (List Char)) :=
  fun _ => some [['c', 'f', 'a'], ['x', 'y']]

/-- An `mkstemps` that always fails with -1. -/
def mkstFail : List Char → Nat → Option (List Char × Nat) := fun _ _ => none

/-- An `mkstemps` that succeeds with a rewritten name and descriptor 7. -/
def mkstOk : List Char → Nat → Option (List Char × Nat) := fun _ _ => some (['f', '1'], 7)

/-- A kind-prefix table for the single-kind fixture. -/
def presFix : Unit → List Char := fun _ => ['c', 'f']

/-- A kind-suffix table for the single-kind fixture. -/
def sufsFix : Unit → List Char := fun _ => ['.', 'p']

/-- The identity on code-unit strings, a conversion function fixture. -/
def idFun : List Nat → List Nat := fun x => x

/- ------------------------------------------------------------------ -/
/- Helper lemmas                                                      -/
/- ------------------------------------------------------------------ -/

theorem resizeFill_length {α : Type} (l : List α) (n : Nat) (pad : α) :
    (resizeFill l n pad).length = n := by
  simp [resizeFill]
  omega

theorem foldl_filter_map {α β : Type} (p : α → Bool) (f : α → β) (l : List α) :
    ∀ acc : List β,
      l.foldl (fun r nm => if p nm then r ++ [f nm] else r) acc
        = acc ++ (l.filter p).map f := by
  induction l with
  | nil => intro acc; simp
  | cons x xs ih =>
    intro acc
    by_cases hx : p x <;> simp [List.filter_cons, hx, ih]

theorem rfindChar_of_not_mem (c : Char) (l : List Char) (h : c ∉ l) :
    rfindChar c l = none := by
  induction l with
  | nil => rfl
  | cons x xs ih =>
    simp only [List.mem_cons, not_or] at h
    have hxc : ¬ x = c := fun hxc => h.1 hxc.symm
    simp [rfindChar, ih h.2, hxc]

theorem rfindChar_last (c : Char) (p q : List Char) (hq : c ∉ q) :
    rfindChar c (p ++ c :: q) = some p.length := by
  induction p with
  | nil => simp [rfindChar, rfindChar_of_not_mem c q hq]
  | cons x xs ih => simp [rfindChar, ih]

theorem take_append_last (p q : List Char) (c : Char) :
    (p ++ c :: q).take (p.length + 1) = p ++ [c] := by
  have h : p ++ c :: q = (p ++ [c]) ++ q := by simp
  have h2 : p.length + 1 = (p ++ [c]).length := by simp
  rw [h, h2, List.take_left]

theorem envOk_some (statDir : List Char → Bool) (v : List Char) :
    envOk statDir (some v) = statDir v := rfl

theorem envOk_none (statDir : List Char → Bool) : envOk statDir none = false := rfl

theorem findTempFiles_some (env : String → Option (List Char)) (statDir : List Char → Bool)
    (readDir : List Char → Option (List (List Char))) (tpAll : List Char)
    (entries : List (List Char))
    (h : readDir (tempFileDirectory env statDir) = some entries) :
    findTempFiles env statDir readDir tpAll
      = (entries.filter (fun nm => tpAll.isPrefixOf nm)).map
          (qualify (tempFileDirectory env statDir)) := by
  simp only [findTempFiles, h]
  simpa using foldl_filter_map (fun nm => tpAll.isPrefixOf nm)
    (qualify (tempFileDirectory env statDir)) entries []

theorem hardFailure_soft (c : Prop) [Decidable c] :
    hardFailure (if c then UStatus.bufferOverflow else UStatus.zeroError) = false := by
  split <;> rfl

theorem bufGrowLoop_mono {α : Type} (t : List α → List α × Nat × UStatus) (pad : α) :
    ∀ (f : Nat) (buf out : List α), bufGrowLoop t pad f buf = .ok out →
      ∀ g, f ≤ g → bufGrowLoop t pad g buf = .ok out := by
  intro f
  induction f with
  | zero =>
    intro buf out h
    simp [bufGrowLoop] at h
  | succ f ih =>
    intro buf out h g hg
    obtain ⟨g, rfl⟩ : ∃ k, g = k + 1 := ⟨g - 1, by omega⟩
    rw [bufGrowLoop] at h ⊢
    by_cases h1 : hardFailure (t buf).2.2 = true
    · rw [if_pos h1] at h
      exact absurd h (by simp [cfdgErrorReport])
    · rw [if_neg h1] at h ⊢
      by_cases h2 : (t buf).2.1 ≤ buf.length
      · rw [if_pos h2] at h ⊢
        exact h
      · rw [if_neg h2] at h ⊢
        exact ih _ out h g (by omega)

theorem lenSeq_shift (g : Nat → Nat) (l0 : Nat) :
    ∀ i, lenSeq g l0 (i + 1) = lenSeq g (g l0 + 1) i := by
  intro i
  induction i with
  | zero => rfl
  | succ i ih => rw [lenSeq, ih, lenSeq]

theorem bufGrowLoop_converges {α : Type} (t : List α → List α × Nat × UStatus) (pad : α)
    (g : Nat → Nat)
    (hsz : ∀ b, (t b).2.1 = g b.length)
    (hnf : ∀ b, hardFailure (t b).2.2 = false) :
    ∀ (i : Nat) (buf : List α),
      g (lenSeq g buf.length i) ≤ lenSeq g buf.length i →
      ∃ out, bufGrowLoop t pad (i + 1) buf = .ok out := by
  intro i
  induction i with
  | zero =>
    intro buf hi
    refine ⟨resizeFill (t buf).1 (t buf).2.1 pad, ?_⟩
    rw [bufGrowLoop, if_neg (by simp [hnf buf]), if_pos (by rw [hsz buf]; exact hi)]
  | succ i ih =>
    intro buf hi
    by_cases hle : (t buf).2.1 ≤ buf.length
    · have h1 : bufGrowLoop t pad 1 buf = .ok (resizeFill (t buf).1 (t buf).2.1 pad) := by
        rw [bufGrowLoop, if_neg (by simp [hnf buf]), if_pos hle]
      exact ⟨_, bufGrowLoop_mono t pad 1 buf _ h1 (i + 1 + 1) (by omega)⟩
    · rw [show i + 1 + 1 = (i + 1) + 1 from rfl]
      have hstep : bufGrowLoop t pad (i + 1 + 1) buf
          = bufGrowLoop t pad (i + 1) (resizeFill (t buf).1 ((t buf).2.1 + 1) pad) := by
        rw [bufGrowLoop, if_neg (by simp [hnf buf]), if_neg hle]
      rw [hstep]
      apply ih
      rw [resizeFill_length, hsz buf, ← lenSeq_shift]
      exact hi

theorem tDemand_run (pad : Nat) :
    ∀ (i : Nat) (buf : List Nat),
      bufGrowLoop (tDemand (buf.length + 2 * i)) pad i buf = .fuelOut
      ∧ bufGrowLoop (tDemand (buf.length + 2 * i)) pad (i + 1) buf = .ok [] := by
  intro i
  induction i with
  | zero =>
    intro buf
    constructor
    · rfl
    · have htd0 : tDemand (buf.length + 2 * 0) buf = (buf, 0, .zeroError) := by
        simp [tDemand]
      rw [bufGrowLoop, htd0, if_neg (show ¬(hardFailure UStatus.zeroError = true) from by
        simp [hardFailure]), if_pos (show (0 : Nat) ≤ buf.length from by omega)]
      simp [resizeFill]
  | succ i ih =>
    intro buf
    have hlt : buf.length < buf.length + 2 * (i + 1) := by omega
    have htd : tDemand (buf.length + 2 * (i + 1)) buf
        = (buf, buf.length + 1, .bufferOverflow) := by
      simp [tDemand, hlt]
    have hstep : ∀ m, bufGrowLoop (tDemand (buf.length + 2 * (i + 1))) pad (m + 1) buf
        = bufGrowLoop (tDemand (buf.length + 2 * (i + 1))) pad m
            (resizeFill buf (buf.length + 1 + 1) pad) := by
      intro m
      rw [bufGrowLoop, htd,
        if_neg (show ¬(hardFailure UStatus.bufferOverflow = true) from by simp [hardFailure]),
        if_neg (show ¬(buf.length + 1 ≤ buf.length) from by omega)]
    have hm : buf.length + 2 * (i + 1)
        = (resizeFill buf (buf.length + 1 + 1) pad).length + 2 * i := by
      rw [resizeFill_length]
      omega
    constructor
    · rw [hstep i, hm]
      exact (ih (resizeFill buf (buf.length + 1 + 1) pad)).1
    · rw [hstep (i + 1), hm]
      exact (ih (resizeFill buf (buf.length + 1 + 1) pad)).2

theorem icuWrite_length (out buf : List Nat) : (icuWrite out buf).length = buf.length := by
  simp [icuWrite]
  omega

theorem resizeFill_icuWrite (out buf : List Nat) (pad : Nat) (h : out.length ≤ buf.length) :
    resizeFill (icuWrite out buf) out.length pad = out := by
  rw [resizeFill, icuWrite_length, Nat.sub_eq_zero_of_le h, List.replicate_zero,
    List.append_nil, icuWrite, List.take_of_length_le h, List.take_left]

theorem bufGrowLoop_icuPure (f : List Nat → List Nat) (input : List Nat) (pad : Nat)
    (buf : List Nat) (k : Nat) :
    bufGrowLoop (icuPureTransform f input) pad (k + 2) buf = .ok (f input) := by
  have hnf : ∀ b : List Nat, hardFailure (icuPureTransform f input b).2.2 = false := by
    intro b
    exact hardFailure_soft _
  have hsz : ∀ b : List Nat, (icuPureTransform f input b).2.1 = (f input).length :=
    fun b => rfl
  have hfst : ∀ b : List Nat, (icuPureTransform f input b).1 = icuWrite (f input) b :=
    fun b => rfl
  by_cases hle : (f input).length ≤ buf.length
  · have h1 : bufGrowLoop (icuPureTransform f input) pad 1 buf = .ok (f input) := by
      rw [bufGrowLoop, if_neg (by simp [hnf buf]),
        if_pos (show (icuPureTransform f input buf).2.1 ≤ buf.length from by
          rw [hsz buf]; exact hle)]
      rw [hfst buf, hsz buf, resizeFill_icuWrite (f input) buf pad hle]
    exact bufGrowLoop_mono _ pad 1 buf _ h1 (k + 2) (by omega)
  · have hstep : bufGrowLoop (icuPureTransform f input) pad (k + 1 + 1) buf
        = bufGrowLoop (icuPureTransform f input) pad (k + 1)
            (resizeFill (icuWrite (f input) buf) ((f input).length + 1) pad) := by
      rw [bufGrowLoop, if_neg (by simp [hnf buf]),
        if_neg (show ¬((icuPureTransform f input buf).2.1 ≤ buf.length) from by
          rw [hsz buf]; omega)]
      rw [hfst buf, hsz buf]
    rw [show k + 2 = k + 1 + 1 from rfl, hstep]
    have hlen : (resizeFill (icuWrite (f input) buf) ((f input).length + 1) pad).length
        = (f input).length + 1 := resizeFill_length _ _ _
    have hle2 : (f input).length
        ≤ (resizeFill (icuWrite (f input) buf) ((f input).length + 1) pad).length := by
      rw [hlen]; omega
    have h1 : bufGrowLoop (icuPureTransform f input) pad 1
        (resizeFill (icuWrite (f input) buf) ((f input).length + 1) pad) = .ok (f input) := by
      rw [bufGrowLoop, if_neg (by simp [hnf]),
        if_pos (show (icuPureTransform f input _).2.1 ≤ _ from by rw [hsz]; exact hle2)]
      rw [hfst, hsz, resizeFill_icuWrite (f input) _ pad hle2]
    exact bufGrowLoop_mono _ pad 1 _ _ h1 (k + 1) (by omega)

theorem lazyInit_someUnit (cur : Option Unit) : lazyInit cur (some ()) = some () := by
  cases cur with
  | none => rfl
  | some u => cases u; rfl

theorem normalize_conv_none {C N : Type} (P : ICUPlatform C N) (f1 f2 : Nat)
    (st : NormState C N) (u8 : List Nat)
    (hc : lazyInit st.mConverter P.ucnvOpenUTF8 = none) :
    normalize P f1 f2 st u8 = (st, .fatal 33) := by
  simp [normalize, hc, catastrophicError]

theorem normalize_nfkc_none {C N : Type} (P : ICUPlatform C N) (f1 f2 : Nat)
    (st : NormState C N) (u8 : List Nat) (cv : C)
    (hc : lazyInit st.mConverter P.ucnvOpenUTF8 = some cv)
    (hn : lazyInit st.mNormalizer P.nfkcInstance = none) :
    normalize P f1 f2 st u8 = (⟨some cv, st.mNormalizer⟩, .fatal 33) := by
  simp [normalize, hc, hn, catastrophicError]

theorem normalize_dec_fuelOut {C N : Type} (P : ICUPlatform C N) (f1 f2 : Nat)
    (st : NormState C N) (u8 : List Nat) (cv : C) (nrm : N)
    (hc : lazyInit st.mConverter P.ucnvOpenUTF8 = some cv)
    (hn : lazyInit st.mNormalizer P.nfkcInstance = some nrm)
    (hd : bufGrowLoop (P.ucnvToUChars cv u8) spaceUnit f1
      (List.replicate u8.length spaceUnit) = .fuelOut) :
    normalize P f1 f2 st u8 = (⟨some cv, some nrm⟩, .fuelOut) := by
  simp [normalize, hc, hn, hd]

theorem normalize_dec_convError {C N : Type} (P : ICUPlatform C N) (f1 f2 : Nat)
    (st : NormState C N) (u8 : List Nat) (cv : C) (nrm : N)
    (hc : lazyInit st.mConverter P.ucnvOpenUTF8 = some cv)
    (hn : lazyInit st.mNormalizer P.nfkcInstance = some nrm)
    (hd : bufGrowLoop (P.ucnvToUChars cv u8) spaceUnit f1
      (List.replicate u8.length spaceUnit) = .convError) :
    normalize P f1 f2 st u8 = (⟨some cv, some nrm⟩, .convError) := by
  simp [normalize, hc, hn, hd]

theorem normalize_nrm_fuelOut {C N : Type} (P : ICUPlatform C N) (f1 f2 : Nat)
    (st : NormState C N) (u8 u16 : List Nat) (cv : C) (nrm : N)
    (hc : lazyInit st.mConverter P.ucnvOpenUTF8 = some cv)
    (hn : lazyInit st.mNormalizer P.nfkcInstance = some nrm)
    (hd : bufGrowLoop (P.ucnvToUChars cv u8) spaceUnit f1
      (List.replicate u8.length spaceUnit) = .ok u16)
    (hl : bufGrowLoop (P.unorm2Normalize nrm u16) spaceUnit f2
      (List.replicate u16.length spaceUnit) = .fuelOut) :
    normalize P f1 f2 st u8 = (⟨some cv, some nrm⟩, .fuelOut) := by
  simp [normalize, hc, hn, hd, hl]

theorem normalize_nrm_convError {C N : Type} (P : ICUPlatform C N) (f1 f2 : Nat)
    (st : NormState C N) (u8 u16 : List Nat) (cv : C) (nrm : N)
    (hc : lazyInit st.mConverter P.ucnvOpenUTF8 = some cv)
    (hn : lazyInit st.mNormalizer P.nfkcInstance = some nrm)
    (hd : bufGrowLoop (P.ucnvToUChars cv u8) spaceUnit f1
      (List.replicate u8.length spaceUnit) = .ok u16)
    (hl : bufGrowLoop (P.unorm2Normalize nrm u16) spaceUnit f2
      (List.replicate u16.length spaceUnit) = .convError) :
    normalize P f1 f2 st u8 = (⟨some cv, some nrm⟩, .convError) := by
  simp [normalize, hc, hn, hd, hl]

theorem normalize_nrm_ok {C N : Type} (P : ICUPlatform C N) (f1 f2 : Nat)
    (st : NormState C N) (u8 u16 ret : List Nat) (cv : C) (nrm : N)
    (hc : lazyInit st.mConverter P.ucnvOpenUTF8 = some cv)
    (hn : lazyInit st.mNormalizer P.nfkcInstance = some nrm)
    (hd : bufGrowLoop (P.ucnvToUChars cv u8) spaceUnit f1
      (List.replicate u8.length spaceUnit) = .ok u16)
    (hl : bufGrowLoop (P.unorm2Normalize nrm u16) spaceUnit f2
      (List.replicate u16.length spaceUnit) = .ok ret) :
    normalize P f1 f2 st u8 = (⟨some cv, some nrm⟩, .ok ret) := by
  simp [normalize, hc, hn, hd, hl]

theorem normalize_pure (dec nf : List Nat → List Nat) (f1 f2 : Nat)
    (st : NormState Unit Unit) (u8 : List Nat) (h1 : 2 ≤ f1) (h2 : 2 ≤ f2) :
    normalize (purePlatform dec nf) f1 f2 st u8 = (⟨some (), some ()⟩, .ok (nf (dec u8))) := by
  obtain ⟨k1, rfl⟩ : ∃ k, f1 = k + 2 := ⟨f1 - 2, by omega⟩
  obtain ⟨k2, rfl⟩ : ∃ k, f2 = k + 2 := ⟨f2 - 2, by omega⟩
  exact normalize_nrm_ok (purePlatform dec nf) (k1 + 2) (k2 + 2) st u8
    (dec u8) (nf (dec u8)) () ()
    (lazyInit_someUnit st.mConverter) (lazyInit_someUnit st.mNormalizer)
    (bufGrowLoop_icuPure dec u8 spaceUnit (List.replicate u8.length spaceUnit) k1)
    (bufGrowLoop_icuPure nf (dec u8) spaceUnit
      (List.replicate (dec u8).length spaceUnit) k2)

/- ------------------------------------------------------------------ -/
/- Claim theorems                                                     -/
/- ------------------------------------------------------------------ -/

/-- Claim C1: each buffer-growth conversion loop in normalize (both the
UTF-8 to UTF-16 decode and the NFKC normalization step run bufGrowLoop),
when the transform reports a required size larger than the current buffer,
resizes the buffer to the reported required size plus one unit and
retries; on success it truncates the buffer to the exact reported length;
in particular a transform that reports the needed size with an overflow
status on the first call and succeeds on the second is satisfied in
exactly two attempts, with output of exactly the reported length. -/
theorem claimC1 {α : Type} (t : List α → List α × Nat × UStatus) (pad : α)
    (fuel : Nat) (buf : List α) :
    (hardFailure (t buf).2.2 = false → (t buf).2.1 ≤ buf.length →
      bufGrowLoop t pad (fuel + 1) buf = .ok (resizeFill (t buf).1 (t buf).2.1 pad)
      ∧ (resizeFill (t buf).1 (t buf).2.1 pad).length = (t buf).2.1)
    ∧ (hardFailure (t buf).2.2 = false → buf.length < (t buf).2.1 →
      bufGrowLoop t pad (fuel + 1) buf
        = bufGrowLoop t pad fuel (resizeFill (t buf).1 ((t buf).2.1 + 1) pad)
      ∧ (resizeFill (t buf).1 ((t buf).2.1 + 1) pad).length = (t buf).2.1 + 1)
    ∧ (∀ n, buf.length < n → (t buf).2.2 = .bufferOverflow → (t buf).2.1 = n →
      (∀ b2, b2.length = n + 1 →
        hardFailure (t b2).2.2 = false ∧ (t b2).2.1 = n) →
      bufGrowLoop t pad 1 buf = .fuelOut
      ∧ ∃ out, bufGrowLoop t pad 2 buf = .ok out ∧ out.length = n) := by
  refine ⟨?_, ?_, ?_⟩
  · intro hf hle
    refine ⟨?_, resizeFill_length _ _ _⟩
    rw [bufGrowLoop, if_neg (by simp [hf]), if_pos hle]
  · intro hf hlt
    refine ⟨?_, resizeFill_length _ _ _⟩
    rw [bufGrowLoop, if_neg (by simp [hf]), if_neg (by omega)]
  · intro n hlt hst hsz hb2
    constructor
    · rw [bufGrowLoop, if_neg (by simp [hst, hardFailure]),
        if_neg (show ¬((t buf).2.1 ≤ buf.length) from by rw [hsz]; omega)]
      rfl
    · set b1 := resizeFill (t buf).1 ((t buf).2.1 + 1) pad with hb1
      have hlen : b1.length = n + 1 := by rw [hb1, resizeFill_length, hsz]
      obtain ⟨hf2, hsz2⟩ := hb2 b1 hlen
      refine ⟨resizeFill (t b1).1 (t b1).2.1 pad, ?_, ?_⟩
      · rw [bufGrowLoop, if_neg (by simp [hst, hardFailure]),
          if_neg (show ¬((t buf).2.1 ≤ buf.length) from by rw [hsz]; omega)]
        rw [bufGrowLoop, if_neg (by simp [hf2]),
          if_pos (show (t b1).2.1 ≤ b1.length from by rw [hsz2, hlen]; omega)]
      · rw [resizeFill_length, hsz2]

/-- Claim C1 witness: a transform demanding size 5 with an overflow status
on a one-element buffer and succeeding on the resized buffer is not done
after one attempt, and is satisfied after exactly two with an output of
length exactly 5. -/
theorem claimC1_witness :
    bufGrowLoop twoCallT (0 : Nat) 1 [32] = .fuelOut
    ∧ ∃ out, bufGrowLoop twoCallT (0 : Nat) 2 [32] = .ok out ∧ out.length = 5 :=
  (claimC1 twoCallT 0 0 [32]).2.2 5 (by decide) (by decide) (by decide)
    (fun b2 hb2 => by
      refine ⟨?_, ?_⟩ <;> simp [twoCallT, hb2, hardFailure])

/-- Claim C2: when a transform reports a failure other than buffer
overflow during the decode or the normalization step, normalize surfaces
it as the recoverable conversion-error outcome, never as a successful
result and never by terminating the process; and a successful result
arises only when both loops completed, so no partially-populated buffer is
ever returned as success. -/
theorem claimC2 {C N : Type} (P : ICUPlatform C N) (f1 f2 : Nat)
    (st : NormState C N) (u8 : List Nat) (cv : C) (nrm : N)
    (hc : lazyInit st.mConverter P.ucnvOpenUTF8 = some cv)
    (hn : lazyInit st.mNormalizer P.nfkcInstance = some nrm) :
    (∀ (α : Type) (t : List α → List α × Nat × UStatus) (pad : α) (fl : Nat) (b : List α),
      hardFailure (t b).2.2 = true → bufGrowLoop t pad (fl + 1) b = .convError)
    ∧ (bufGrowLoop (P.ucnvToUChars cv u8) spaceUnit f1
        (List.replicate u8.length spaceUnit) = .convError →
      normalize P f1 f2 st u8 = (⟨some cv, some nrm⟩, .convError))
    ∧ (∀ u16, bufGrowLoop (P.ucnvToUChars cv u8) spaceUnit f1
        (List.replicate u8.length spaceUnit) = .ok u16 →
      bufGrowLoop (P.unorm2Normalize nrm u16) spaceUnit f2
        (List.replicate u16.length spaceUnit) = .convError →
      normalize P f1 f2 st u8 = (⟨some cv, some nrm⟩, .convError))
    ∧ (∀ st2 w, normalize P f1 f2 st u8 = (st2, .ok w) →
      ∃ u16, bufGrowLoop (P.ucnvToUChars cv u8) spaceUnit f1
          (List.replicate u8.length spaceUnit) = .ok u16
        ∧ bufGrowLoop (P.unorm2Normalize nrm u16) spaceUnit f2
            (List.replicate u16.length spaceUnit) = .ok w) := by
  refine ⟨?_, ?_, ?_, ?_⟩
  · intro α t pad fl b hfail
    rw [bufGrowLoop, if_pos hfail]
    rfl
  · intro hd
    exact normalize_dec_convError P f1 f2 st u8 cv nrm hc hn hd
  · intro u16 hd hl
    exact normalize_nrm_convError P f1 f2 st u8 u16 cv nrm hc hn hd hl
  · intro st2 w hw
    cases hdec : bufGrowLoop (P.ucnvToUChars cv u8) spaceUnit f1
        (List.replicate u8.length spaceUnit) with
    | fuelOut =>
      rw [normalize_dec_fuelOut P f1 f2 st u8 cv nrm hc hn hdec] at hw
      simp at hw
    | convError =>
      rw [normalize_dec_convError P f1 f2 st u8 cv nrm hc hn hdec] at hw
      simp at hw
    | ok u16 =>
      cases hnl : bufGrowLoop (P.unorm2Normalize nrm u16) spaceUnit f2
          (List.replicate u16.length spaceUnit) with
      | fuelOut =>
        rw [normalize_nrm_fuelOut P f1 f2 st u8 u16 cv nrm hc hn hdec hnl] at hw
        simp at hw
      | convError =>
        rw [normalize_nrm_convError P f1 f2 st u8 u16 cv nrm hc hn hdec hnl] at hw
        simp at hw
      | ok ret =>
        rw [normalize_nrm_ok P f1 f2 st u8 u16 ret cv nrm hc hn hdec hnl] at hw
        simp only [Prod.mk.injEq, NormOutcome.ok.injEq] at hw
        obtain ⟨h1, h2⟩ := hw
        subst h2
        exact ⟨u16, rfl, hnl⟩

/-- Claim C2 witness: with both engines available and a decode transform
that always reports a non-overflow failure, normalize surfaces the
recoverable conversion error. -/
theorem claimC2_witness :
    normalize failPlat 1 1 ⟨some (), some ()⟩ [65] = (⟨some (), some ()⟩, .convError) :=
  (claimC2 failPlat 1 1 ⟨some (), some ()⟩ [65] () () rfl rfl).2.1 (by decide)

/-- Claim C4: if construction of the UTF-8 converter engine or of the NFKC
normalizer engine fails on a call to normalize, catastrophicError is
invoked and the outcome is process termination with the fixed exit status
33; conversely, every terminating outcome of normalize carries exit status
33 and stems from a failed engine construction, so no other failure in
this core terminates the process. -/
theorem claimC4 {C N : Type} (P : ICUPlatform C N) (f1 f2 : Nat)
    (st : NormState C N) (u8 : List Nat) :
    (∀ msg, catastrophicError msg = .fatal 33)
    ∧ (lazyInit st.mConverter P.ucnvOpenUTF8 = none →
      (normalize P f1 f2 st u8).2 = .fatal 33)
    ∧ (∀ cv, lazyInit st.mConverter P.ucnvOpenUTF8 = some cv →
      lazyInit st.mNormalizer P.nfkcInstance = none →
      (normalize P f1 f2 st u8).2 = .fatal 33)
    ∧ (∀ code, (normalize P f1 f2 st u8).2 = .fatal code →
      code = 33 ∧ (lazyInit st.mConverter P.ucnvOpenUTF8 = none
        ∨ lazyInit st.mNormalizer P.nfkcInstance = none)) := by
  refine ⟨fun msg => rfl, ?_, ?_, ?_⟩
  · intro h
    rw [normalize_conv_none P f1 f2 st u8 h]
  · intro cv hc hn
    rw [normalize_nfkc_none P f1 f2 st u8 cv hc hn]
  · intro code h
    cases hc : lazyInit st.mConverter P.ucnvOpenUTF8 with
    | none =>
      refine ⟨?_, Or.inl rfl⟩
      rw [normalize_conv_none P f1 f2 st u8 hc] at h
      simp at h
      omega
    | some cv =>
      cases hn : lazyInit st.mNormalizer P.nfkcInstance with
      | none =>
        refine ⟨?_, Or.inr rfl⟩
        rw [normalize_nfkc_none P f1 f2 st u8 cv hc hn] at h
        simp at h
        omega
      | some nrm =>
        exfalso
        cases hdec : bufGrowLoop (P.ucnvToUChars cv u8) spaceUnit f1
            (List.replicate u8.length spaceUnit) with
        | fuelOut =>
          rw [normalize_dec_fuelOut P f1 f2 st u8 cv nrm hc hn hdec] at h
          simp at h
        | convError =>
          rw [normalize_dec_convError P f1 f2 st u8 cv nrm hc hn hdec] at h
          simp at h
        | ok u16 =>
          cases hnl : bufGrowLoop (P.unorm2Normalize nrm u16) spaceUnit f2
              (List.replicate u16.length spaceUnit) with
          | fuelOut =>
            rw [normalize_nrm_fuelOut P f1 f2 st u8 u16 cv nrm hc hn hdec hnl] at h
            simp at h
          | convError =>
            rw [normalize_nrm_convError P f1 f2 st u8 u16 cv nrm hc hn hdec hnl] at h
            simp at h
          | ok ret =>
            rw [normalize_nrm_ok P f1 f2 st u8 u16 ret cv nrm hc hn hdec hnl] at h
            simp at h

/-- Claim C4 witness: on the first call, with a platform whose converter
engine fails to construct, normalize terminates with exit status 33. -/
theorem claimC4_witness :
    (normalize noConvPlat 1 1 ⟨none, none⟩ []).2 = .fatal 33 :=
  (claimC4 noConvPlat 1 1 ⟨none, none⟩ []).2.1 rfl

/-- Claim C7: canonicalization is idempotent.  With the two ICU transforms
given by pure functions dec (decoding, with enc the encoding it inverts)
and nf (NFKC, idempotent as a property of the canonical form), applying
normalize to the re-encoded result of normalize yields the same string,
and a string already in canonical form is returned identically. -/
theorem claimC7 (dec nf enc : List Nat → List Nat) (f1 f2 : Nat)
    (st st2 : NormState Unit Unit) (u8 : List Nat)
    (hretr : ∀ w, dec (enc w) = w) (hidem : ∀ x, nf (nf x) = nf x)
    (hf1 : 2 ≤ f1) (hf2 : 2 ≤ f2) :
    (∀ w, (normalize (purePlatform dec nf) f1 f2 st u8).2 = .ok w →
      (normalize (purePlatform dec nf) f1 f2 st2 (enc w)).2 = .ok w)
    ∧ (nf (dec u8) = dec u8 →
      (normalize (purePlatform dec nf) f1 f2 st u8).2 = .ok (dec u8)) := by
  constructor
  · intro w hw
    rw [normalize_pure dec nf f1 f2 st u8 hf1 hf2] at hw
    simp at hw
    rw [normalize_pure dec nf f1 f2 st2 (enc w) hf1 hf2]
    simp [hretr w]
    subst hw
    exact hidem (dec u8)
  · intro hcanon
    rw [normalize_pure dec nf f1 f2 st u8 hf1 hf2]
    simp [hcanon]

/-- Claim C7 witness: with identity transforms, a canonical input is
returned identically by normalize. -/
theorem claimC7_witness :
    (normalize (purePlatform idFun idFun) 2 2 ⟨none, none⟩ [65]).2 = .ok [65] :=
  (claimC7 idFun idFun idFun 2 2 ⟨none, none⟩ ⟨none, none⟩ [65]
    (fun w => rfl) (fun x => rfl) (by omega) (by omega)).2 rfl

/-- Claim C8: the buffer-growth retry loop terminates for every transform
whose size reporting converges; a transform with constant size reporting
is satisfied within two iterations (the initial guess and one exact-size
retry); and the loop imposes no cap on the number of retries: for every
bound there is an iteratively-reporting transform that needs more
iterations than the bound yet still succeeds with one more. -/
theorem claimC8 :
    (∀ (α : Type) (t : List α → List α × Nat × UStatus) (pad : α) (buf : List α) (n : Nat),
      (∀ b, (t b).2.1 = n) → (∀ b, hardFailure (t b).2.2 = false) →
      ∃ out, bufGrowLoop t pad 2 buf = .ok out ∧ out.length = n)
    ∧ (∀ (α : Type) (t : List α → List α × Nat × UStatus) (pad : α) (g : Nat → Nat)
        (buf : List α) (i : Nat),
      (∀ b, (t b).2.1 = g b.length) → (∀ b, hardFailure (t b).2.2 = false) →
      g (lenSeq g buf.length i) ≤ lenSeq g buf.length i →
      ∃ out, bufGrowLoop t pad (i + 1) buf = .ok out)
    ∧ (∀ (k : Nat) (pad : Nat),
      ∃ (t : List Nat → List Nat × Nat × UStatus) (buf : List Nat) (out : List Nat),
        bufGrowLoop t pad k buf = .fuelOut ∧ bufGrowLoop t pad (k + 1) buf = .ok out) := by
  refine ⟨?_, ?_, ?_⟩
  · intro α t pad buf n hsz hnf
    by_cases hle : n ≤ buf.length
    · refine ⟨resizeFill (t buf).1 (t buf).2.1 pad, ?_, ?_⟩
      · have h1 : bufGrowLoop t pad 1 buf = .ok (resizeFill (t buf).1 (t buf).2.1 pad) := by
          rw [bufGrowLoop, if_neg (by simp [hnf buf]),
            if_pos (show (t buf).2.1 ≤ buf.length from by rw [hsz buf]; exact hle)]
        exact bufGrowLoop_mono t pad 1 buf _ h1 2 (by omega)
      · rw [resizeFill_length, hsz buf]
    · set b1 := resizeFill (t buf).1 ((t buf).2.1 + 1) pad with hb1
      have hlen1 : b1.length = n + 1 := by rw [hb1, resizeFill_length, hsz buf]
      refine ⟨resizeFill (t b1).1 (t b1).2.1 pad, ?_, ?_⟩
      · rw [bufGrowLoop, if_neg (by simp [hnf buf]),
          if_neg (show ¬((t buf).2.1 ≤ buf.length) from by rw [hsz buf]; omega)]
        rw [bufGrowLoop, if_neg (by simp [hnf b1]),
          if_pos (show (t b1).2.1 ≤ b1.length from by rw [hsz b1, hlen1]; omega)]
      · rw [resizeFill_length, hsz b1]
  · intro α t pad g buf i hsz hnf hi
    exact bufGrowLoop_converges t pad g hsz hnf i buf hi
  · intro k pad
    exact ⟨_, [], [], (tDemand_run pad k []).1, (tDemand_run pad k []).2⟩

/-- Claim C8 witness: a transform with constant size reporting is
satisfied by the loop within two iterations. -/
theorem claimC8_witness :
    ∃ out, bufGrowLoop constT (0 : Nat) 2 [] = .ok out ∧ out.length = 0 :=
  claimC8.1 Nat constT 0 [] 0 (fun b => rfl) (fun b => rfl)

/-- Claim C3: tempFileDirectory evaluates TMPDIR, TEMP, TMP in that order
and returns the value of the first one that is set, names an existing
path, and that path is a directory; if none of the three qualifies it
returns the fixed fallback /tmp/.  The model is a pure function of the
environment and the stat oracle, so the operation has no side effects on
the environment or filesystem. -/
theorem claimC3 (env : String → Option (List Char)) (statDir : List Char → Bool) :
    (∀ v, env ("TMPDIR") = some v → statDir v = true →
      tempFileDirectory env statDir = v)
    ∧ (∀ v, envOk statDir (env ("TMPDIR")) = false →
        env ("TEMP") = some v → statDir v = true →
        tempFileDirectory env statDir = v)
    ∧ (∀ v, envOk statDir (env ("TMPDIR")) = false →
        envOk statDir (env ("TEMP")) = false →
        env ("TMP") = some v → statDir v = true →
        tempFileDirectory env statDir = v)
    ∧ (envOk statDir (env ("TMPDIR")) = false →
        envOk statDir (env ("TEMP")) = false →
        envOk statDir (env ("TMP")) = false →
        tempFileDirectory env statDir = ("/tmp/".toList)) := by
  refine ⟨?_, ?_, ?_, ?_⟩
  · intro v hv hs
    simp [tempFileDirectory, hv, envOk_some, hs]
  · intro v h1 hv hs
    simp [tempFileDirectory, h1, hv, envOk_some, hs]
  · intro v h1 h2 hv hs
    simp [tempFileDirectory, h1, h2, hv, envOk_some, hs]
  · intro h1 h2 h3
    simp [tempFileDirectory, h1, h2, h3]

/-- Claim C3 witness: with TMPDIR set to an existing directory, the
resolver returns its value. -/
theorem claimC3_witness : tempFileDirectory envTmpdirOnly statAlways = ['t', 'd'] :=
  (claimC3 envTmpdirOnly statAlways).1 ['t', 'd'] (by decide) rfl

/-- Claim C5: getPhysicalMemory never signals an error to its caller (its
result is a plain byte count); the result equals the queried value when at
most the ceiling, exactly the ceiling when the queried value exceeds it,
and zero when no query mechanism is compiled in or the run-time query
fails; the result is always at most the ceiling. -/
theorem claimC5 (maxMemory : Nat) :
    (∀ p, getPhysicalMemory maxMemory p ≤ maxMemory)
    ∧ (∀ v, v ≤ maxMemory →
        getPhysicalMemory maxMemory (.sysctlQuery (some v)) = v)
    ∧ (∀ v, maxMemory < v →
        getPhysicalMemory maxMemory (.sysctlQuery (some v)) = maxMemory)
    ∧ (∀ pp ps, (pp * ps) % (2 ^ 64) ≤ maxMemory →
        getPhysicalMemory maxMemory (.linuxWithSysconf pp ps) = (pp * ps) % (2 ^ 64))
    ∧ (∀ pp ps, maxMemory < (pp * ps) % (2 ^ 64) →
        getPhysicalMemory maxMemory (.linuxWithSysconf pp ps) = maxMemory)
    ∧ getPhysicalMemory maxMemory .noSysctl = 0
    ∧ getPhysicalMemory maxMemory .linuxNoSysconf = 0
    ∧ getPhysicalMemory maxMemory .sysctlNoCtlHw = 0
    ∧ getPhysicalMemory maxMemory .sysctlNoHwName = 0
    ∧ getPhysicalMemory maxMemory (.sysctlQuery none) = 0 := by
  refine ⟨?_, ?_, ?_, ?_, ?_, rfl, rfl, rfl, rfl, rfl⟩
  · intro p
    cases p with
    | noSysctl => simp [getPhysicalMemory]
    | linuxWithSysconf pp ps =>
      simp only [getPhysicalMemory]
      split <;> omega
    | linuxNoSysconf => simp [getPhysicalMemory]
    | sysctlNoCtlHw => simp [getPhysicalMemory]
    | sysctlNoHwName => simp [getPhysicalMemory]
    | sysctlQuery r =>
      cases r with
      | none => simp [getPhysicalMemory]
      | some v =>
        simp only [getPhysicalMemory]
        split <;> omega
  · intro v hv
    simp only [getPhysicalMemory]
    split <;> omega
  · intro v hv
    simp only [getPhysicalMemory]
    split <;> omega
  · intro pp ps h
    simp only [getPhysicalMemory]
    split <;> omega
  · intro pp ps h
    simp only [getPhysicalMemory]
    split <;> omega

/-- Claim C5 witness: a queried value below the ceiling is returned as is,
and one above the ceiling is clamped to exactly the ceiling. -/
theorem claimC5_witness :
    getPhysicalMemory 100 (.sysctlQuery (some 50)) = 50
    ∧ getPhysicalMemory 100 (.sysctlQuery (some 200)) = 100 :=
  ⟨(claimC5 100).2.1 50 (by decide), (claimC5 100).2.2.1 200 (by decide)⟩

/-- Claim C6: findTempFiles returns exactly the directory entries of the
resolved temp directory whose names begin with the registry-wide marker,
each returned path formed by qualifying the entry name with the directory
path, inserting a slash separator when the directory path lacks a trailing
one; if the directory cannot be opened it returns an empty list rather
than an error. -/
theorem claimC6 (env : String → Option (List Char)) (statDir : List Char → Bool)
    (readDir : List Char → Option (List (List Char))) (tpAll : List Char) :
    (readDir (tempFileDirectory env statDir) = none →
      findTempFiles env statDir readDir tpAll = [])
    ∧ (∀ entries, readDir (tempFileDirectory env statDir) = some entries →
        findTempFiles env statDir readDir tpAll
          = (entries.filter (fun nm => tpAll.isPrefixOf nm)).map
              (qualify (tempFileDirectory env statDir)))
    ∧ (∀ entries x, readDir (tempFileDirectory env statDir) = some entries →
        (x ∈ findTempFiles env statDir readDir tpAll
          ↔ ∃ nm, nm ∈ entries ∧ tpAll.isPrefixOf nm = true
              ∧ x = qualify (tempFileDirectory env statDir) nm))
    ∧ (∀ d nm, d.getLast? ≠ some '/' → qualify d nm = d ++ '/' :: nm)
    ∧ (∀ d nm, d.getLast? = some '/' → qualify d nm = d ++ nm) := by
  refine ⟨?_, ?_, ?_, ?_, ?_⟩
  · intro h
    simp [findTempFiles, h]
  · intro entries h
    exact findTempFiles_some env statDir readDir tpAll entries h
  · intro entries x h
    rw [findTempFiles_some env statDir readDir tpAll entries h]
    simp only [List.mem_map, List.mem_filter]
    constructor
    · rintro ⟨nm, ⟨hmem, hpre⟩, heq⟩
      exact ⟨nm, hmem, hpre, heq.symm⟩
    · rintro ⟨nm, hmem, hpre, heq⟩
      exact ⟨nm, ⟨hmem, hpre⟩, heq.symm⟩
  · intro d nm h
    simp [qualify, h]
  · intro d nm h
    simp [qualify, h]

/-- Claim C6 witness: with TMPDIR resolving to the directory td and a
listing holding one marked and one unmarked entry, exactly the marked
entry is returned, qualified with an inserted separator. -/
theorem claimC6_witness :
    findTempFiles envTmpdirOnly statAlways readDirFix ['c', 'f']
      = [['t', 'd', '/', 'c', 'f', 'a']] := by
  rw [(claimC6 envTmpdirOnly statAlways readDirFix ['c', 'f']).2.1
    [['c', 'f', 'a'], ['x', 'y']] rfl]
  decide

/-- Claim C9: when exclusive temp-file creation fails, tempFileForWrite
returns a null stream handle and leaves its nameOut output parameter
completely unchanged; nameOut is assigned the final path only on success,
together with a non-null handle wrapping the opened descriptor. -/
theorem claimC9 {τ : Type} (env : String → Option (List Char)) (statDir : List Char → Bool)
    (pres sufs : τ → List Char) (mkst : List Char → Nat → Option (List Char × Nat))
    (tt : τ) (nameOut : List Char) :
    (mkst (tempTemplate env statDir pres sufs tt) (sufs tt).length = none →
      tempFileForWrite env statDir pres sufs mkst tt nameOut = (none, nameOut))
    ∧ (∀ b fd,
        mkst (tempTemplate env statDir pres sufs tt) (sufs tt).length = some (b, fd) →
        tempFileForWrite env statDir pres sufs mkst tt nameOut = (some fd, b)) := by
  constructor
  · intro h
    simp [tempFileForWrite, h]
  · intro b fd h
    simp [tempFileForWrite, h]

/-- Claim C9 witness: a failing mkstemps yields a null handle with nameOut
untouched, a succeeding one yields the descriptor and the final path. -/
theorem claimC9_witness :
    tempFileForWrite envTmpdirOnly statAlways presFix sufsFix mkstFail () ['o']
      = (none, ['o'])
    ∧ tempFileForWrite envTmpdirOnly statAlways presFix sufsFix mkstOk () ['o']
      = (some 7, ['f', '1']) :=
  ⟨(claimC9 envTmpdirOnly statAlways presFix sufsFix mkstFail () ['o']).1 rfl,
   (claimC9 envTmpdirOnly statAlways presFix sufsFix mkstOk () ['o']).2 ['f', '1'] 7 rfl⟩

/-- Claim C10: for every pair of strings base and rel, relativeFilePath
returns rel unchanged when base contains no slash, and otherwise returns
base with everything after its last slash replaced by rel, preserving base
up to and including that last slash; the model is a pure function, so the
inputs themselves are not modified. -/
theorem claimC10 (base rel : List Char) :
    ('/' ∉ base → relativeFilePath base rel = rel)
    ∧ (∀ p q, base = p ++ '/' :: q → '/' ∉ q →
        relativeFilePath base rel = p ++ '/' :: rel) := by
  constructor
  · intro h
    simp [relativeFilePath, rfindChar_of_not_mem _ _ h]
  · intro p q hbase hq
    subst hbase
    simp [relativeFilePath, rfindChar_last '/' p q hq, take_append_last]

/-- Claim C10 witness: the base a/b with relative name c resolves to a/c. -/
theorem claimC10_witness :
    relativeFilePath ['a', '/', 'b'] ['c'] = ['a', '/', 'c'] :=
  (claimC10 ['a', '/', 'b'] ['c']).2 ['a'] ['b'] rfl (by decide)

end ContextFree
